import Mathlib

/-!
Verification of the py-ssz core: the List sedes (ssz/sedes/list.py), the
codec dispatcher (ssz/codec.py), and the tree-hash scenarios exercised by
src/tests/tree_hash/test_tree_hash.py. Byte strings are embedded as
`List Nat`, machine integers as `Nat` with explicit bounds, and every
Python `raise` site becomes a distinct constructor of the `Err` type.
-/

namespace Ssz

/-- A byte string, one `Nat` per byte (each byte is below 256 wherever the
code produces it). -/
abbrev Bytes := List Nat

/-- One constructor per Python raise site (plus artefacts of the embedding).
`SerializationError`, `DeserializationError`, `ValueError`,
`InvalidSedesError` and `DecodingError` are the exception classes of the
code; `noneTypeError` models the `TypeError` Python raises when a method is
called on a `None` element sedes, and `loopFuel` models a while loop that
never terminates (it is unreachable for any element codec that advances its
index). -/
inductive Err
  | serializationListTooLong
  | serializationUintOutOfRange
  | deserializationCannotRetrieveLength
  | deserializationCannotRetrieveWholeList
  | deserializationUintInsufficient
  | deserializationTooLong
  | valueErrorEmptyNonEmpty
  | valueErrorBothSpecified
  | valueErrorNeitherSpecified
  | invalidSedesError
  | decodingError
  | noneTypeError
  | loopFuel
  deriving DecidableEq, Repr

/-- The `DeserializationError` class of `ssz.exceptions`: which `Err`
constructors correspond to it. -/
def Err.isDeserializationError : Err → Bool
  | .deserializationCannotRetrieveLength => true
  | .deserializationCannotRetrieveWholeList => true
  | .deserializationUintInsufficient => true
  | .deserializationTooLong => true
  | _ => false

/-- Modelled from the spec: `ssz/constants.py` is not in src. The spec
leaves the numeric width of the length field abstract; we fix it at 4
bytes, consistent with `MAX_LEN_SERIALIZED_LIST_OBJECT = 2^(8·LIST_PREFIX_LENGTH)`. -/
def LIST_PREFIX_LENGTH : Nat := 4

/-- Modelled from the spec: `2^(8·LIST_PREFIX_LENGTH)` per §3 of the spec
(`ssz/constants.py` is not in src). -/
def MAX_LEN_SERIALIZED_LIST_OBJECT : Nat := 2 ^ (8 * LIST_PREFIX_LENGTH)

/-- Python big-endian fixed-width conversion to bytes (to_bytes with the
big byte order): width `w`, value taken modulo `256^w` (Python raises
OverflowError instead, but every call site checks the bound first). -/
def toBytesBE : Nat → Nat → Bytes
  | 0, _ => []
  | w + 1, n => toBytesBE w (n / 256) ++ [n % 256]

/-- Python big-endian conversion from bytes (int.from_bytes with the big
byte order). -/
def fromBytesBE (l : Bytes) : Nat :=
  l.foldl (fun acc b => acc * 256 + b) 0

/-- A sedes for a single element type: the capability the spec calls
"serialize + deserialize_segment". -/
structure Codec (α : Type) where
  serialize : α → Except Err Bytes
  deserialize_segment : Bytes → Nat → Except Err (α × Nat)

/-- The `List` sedes class of `ssz/sedes/list.py`: the two attributes set
by `__init__`. (`List` itself is taken by Lean, hence the name.) -/
structure SSZList (α : Type) where
  element_sedes : Option (Codec α)
  empty : Bool

/-- Embeds `List.__init__(element_sedes=None, empty=False)`: the two truthiness
checks, then the attribute assignment. A sedes object is truthy, `None` is
falsy, so `element_sedes and empty` is `isSome && empty`. -/
def list_init {α : Type} (element_sedes : Option (Codec α)) (empty : Bool) :
    Except Err (SSZList α) :=
  if element_sedes.isSome && empty then
    .error .valueErrorBothSpecified
  else if !element_sedes.isSome && !empty then
    .error .valueErrorNeitherSpecified
  else
    .ok ⟨element_sedes, empty⟩

/-- Embeds the join of the element-serialization generator inside
`List.serialize`: serializes each element in order and concatenates. With
`val` non-empty and `element_sedes = None`, Python raises a `TypeError`
(`noneTypeError` here); with `val` empty the generator never touches
`element_sedes`. -/
def serializeElems {α : Type} (es : Option (Codec α)) : List α → Except Err Bytes
  | [] => .ok []
  | v :: vs =>
    match es with
    | none => .error .noneTypeError
    | some c =>
      match c.serialize v with
      | .error e => .error e
      | .ok b =>
        match serializeElems es vs with
        | .error e => .error e
        | .ok rest => .ok (b ++ rest)

/-- Embeds `List.serialize(val)`. The Python isinstance check (reject
non-iterables and byte/str inputs) is subsumed by the embedding's type:
`val` is a `List α` by construction. The remaining steps are the
empty-sedes check, element concatenation, the
`MAX_LEN_SERIALIZED_LIST_OBJECT` bound, and the big-endian length field. -/
def SSZList.serialize {α : Type} (s : SSZList α) (val : List α) : Except Err Bytes :=
  if s.empty && val.length != 0 then
    .error .valueErrorEmptyNonEmpty
  else
    match serializeElems s.element_sedes val with
    | .error e => .error e
    | .ok body =>
      if MAX_LEN_SERIALIZED_LIST_OBJECT ≤ body.length then
        .error .serializationListTooLong
      else
        .ok (toBytesBE LIST_PREFIX_LENGTH body.length ++ body)

/-- Embeds `self.element_sedes.deserialize_segment(data, i)` with
`element_sedes : Option _`: calling through `None` is a `TypeError`. -/
def optSegment {α : Type} : Option (Codec α) → Bytes → Nat → Except Err (α × Nat)
  | none, _, _ => .error .noneTypeError
  | some c, data, i => c.deserialize_segment data i

/-- The `while element_start_index < list_end_index` loop of
`List.deserialize_segment`, with explicit fuel standing in for Python's
unbounded iteration (the fuel supplied by `deserialize_segment` suffices
for every element codec whose encodings are non-empty). The loop exits as
soon as the index is no longer strictly below `list_end_index` — also when
an element call advanced strictly past it. -/
def parseLoop {α : Type} (es : Option (Codec α)) (data : Bytes)
    (list_end_index : Nat) : Nat → Nat → Except Err (List α)
  | 0, idx =>
    if idx < list_end_index then .error .loopFuel else .ok []
  | fuel + 1, idx =>
    if idx < list_end_index then
      match optSegment es data idx with
      | .error e => .error e
      | .ok (x, j) =>
        match parseLoop es data list_end_index fuel j with
        | .error e => .error e
        | .ok xs => .ok (x :: xs)
    else .ok []

/-- Embeds `List.deserialize_segment(data, start_index)`: the two length checks,
the big-endian length field, the element loop, and the returned pair
`(tuple(deserialized_list), list_end_index)`. -/
def SSZList.deserialize_segment {α : Type} (s : SSZList α) (data : Bytes)
    (start_index : Nat) : Except Err (List α × Nat) :=
  if data.length < start_index + LIST_PREFIX_LENGTH then
    .error .deserializationCannotRetrieveLength
  else
    let list_length := fromBytesBE ((data.drop start_index).take LIST_PREFIX_LENGTH)
    let list_end_index := start_index + LIST_PREFIX_LENGTH + list_length
    if data.length < list_end_index then
      .error .deserializationCannotRetrieveWholeList
    else
      match parseLoop s.element_sedes data list_end_index (list_length + 1)
          (start_index + LIST_PREFIX_LENGTH) with
      | .error e => .error e
      | .ok elems => .ok (elems, list_end_index)

/-- Embeds `List.deserialize(data)`: deserialize a segment from index 0 and
reject any end index other than `len(data)`. -/
def SSZList.deserialize {α : Type} (s : SSZList α) (data : Bytes) :
    Except Err (List α) :=
  match s.deserialize_segment data 0 with
  | .error e => .error e
  | .ok (deserialized_data, end_index) =>
    if end_index != data.length then
      .error .deserializationTooLong
    else
      .ok deserialized_data

/-- A `List` sedes over a given element codec, as built by
`List(element_sedes)`. -/
def listOf {α : Type} (c : Codec α) : SSZList α := ⟨some c, false⟩

/-- Modelled from the spec: the `uint32` sedes (`ssz/sedes/integer.py` is
not in src). Per §4.1 a fixed-size scalar serializes to exactly `N` bytes
(here `N = 4`, big-endian like every other integer field of the format),
fails on out-of-range values, and `deserialize_segment` fails when fewer
than `N` bytes remain, else returns the decoded value and `start + N`. -/
def uint32 : Codec Nat where
  serialize n :=
    if n < 2 ^ 32 then .ok (toBytesBE 4 n) else .error .serializationUintOutOfRange
  deserialize_segment data start :=
    if data.length < start + 4 then
      .error .deserializationUintInsufficient
    else
      .ok (fromBytesBE ((data.drop start).take 4), start + 4)

/-- The module-level instance uint32_list = List(uint32) of `ssz/sedes/list.py`. -/
def uint32_list : SSZList Nat := listOf uint32

/-- The module-level instance empty_list = List(empty=True) of `ssz/sedes/list.py`. -/
def empty_list {α : Type} : SSZList α := ⟨none, true⟩

/-! ### Byte-level lemmas -/

theorem length_toBytesBE (w n : Nat) : (toBytesBE w n).length = w := by
  induction w generalizing n with
  | zero => rfl
  | succ w ih => simp [toBytesBE, ih]

theorem fromBytesBE_append_byte (l : Bytes) (b : Nat) :
    fromBytesBE (l ++ [b]) = fromBytesBE l * 256 + b := by
  simp [fromBytesBE]

theorem fromBytesBE_toBytesBE (w n : Nat) (h : n < 2 ^ (8 * w)) :
    fromBytesBE (toBytesBE w n) = n := by
  induction w generalizing n with
  | zero =>
    interval_cases n
    rfl
  | succ w ih =>
    have hdiv : n / 256 < 2 ^ (8 * w) := by
      apply Nat.div_lt_of_lt_mul
      calc n < 2 ^ (8 * (w + 1)) := h
        _ = 256 * 2 ^ (8 * w) := by ring
    rw [toBytesBE, fromBytesBE_append_byte, ih _ hdiv]
    omega

/-! ### Parsing back a concatenation of element encodings -/

/-- `body` is the in-order concatenation of successful element encodings of
`vs` under the codec `c`. -/
def EncodesTo {α : Type} (c : Codec α) : List α → Bytes → Prop
  | [], body => body = []
  | v :: vs, body =>
    ∃ b rest, c.serialize v = .ok b ∧ EncodesTo c vs rest ∧ body = b ++ rest

/-- The round-trip property of an element codec: deserializing at the
position of an encoding recovers the value and advances exactly past it. -/
def SegParses {α : Type} (c : Codec α) : Prop :=
  ∀ (v : α) (b pre post : Bytes), c.serialize v = .ok b →
    c.deserialize_segment (pre ++ b ++ post) pre.length = .ok (v, pre.length + b.length)

/-- Every successful element encoding is non-empty (so the element loop
makes progress). -/
def SerNonempty {α : Type} (c : Codec α) : Prop :=
  ∀ (v : α) (b : Bytes), c.serialize v = .ok b → 0 < b.length

theorem serializeElems_encodesTo {α : Type} (c : Codec α) (vs : List α) (body : Bytes)
    (h : serializeElems (some c) vs = .ok body) : EncodesTo c vs body := by
  induction vs generalizing body with
  | nil =>
    simp only [serializeElems] at h
    injection h with h
    exact h.symm
  | cons v vs ih =>
    simp only [serializeElems] at h
    cases hser : c.serialize v with
    | error e => rw [hser] at h; cases h
    | ok b =>
      rw [hser] at h
      cases hrest : serializeElems (some c) vs with
      | error e => rw [hrest] at h; cases h
      | ok rest =>
        rw [hrest] at h
        injection h with h
        exact ⟨b, rest, hser, ih rest hrest, h.symm⟩

theorem encodesTo_length_le {α : Type} (c : Codec α) (h3 : SerNonempty c)
    (vs : List α) (body : Bytes) (henc : EncodesTo c vs body) :
    vs.length ≤ body.length := by
  induction vs generalizing body with
  | nil => simp
  | cons v vs ih =>
    obtain ⟨b, rest, hb, hrest, hbody⟩ := henc
    have h1 : 0 < b.length := h3 v b hb
    have h2 : vs.length ≤ rest.length := ih rest hrest
    subst hbody
    simp only [List.length_cons, List.length_append]
    omega

theorem parseLoop_append {α : Type} (c : Codec α) (h2 : SegParses c)
    (h3 : SerNonempty c) (vs : List α) :
    ∀ (body pre post : Bytes) (fuel : Nat), EncodesTo c vs body →
      vs.length ≤ fuel →
      parseLoop (some c) (pre ++ body ++ post) (pre.length + body.length)
        fuel pre.length = .ok vs := by
  induction vs with
  | nil =>
    intro body pre post fuel henc _
    have hbody : body = [] := henc
    subst hbody
    cases fuel <;> simp [parseLoop]
  | cons v vs ih =>
    intro body pre post fuel henc hfuel
    obtain ⟨b, rest, hb, hrest, hbody⟩ := henc
    subst hbody
    obtain ⟨fuel, rfl⟩ : ∃ f, fuel = f + 1 := by
      cases fuel with
      | zero => simp at hfuel
      | succ f => exact ⟨f, rfl⟩
    have hblen : 0 < b.length := h3 v b hb
    have hlt : pre.length < pre.length + (b ++ rest).length := by
      simp only [List.length_append]; omega
    have hseg : c.deserialize_segment (pre ++ (b ++ rest) ++ post) pre.length =
        .ok (v, pre.length + b.length) := by
      have := h2 v b pre (rest ++ post) hb
      rw [show pre ++ (b ++ rest) ++ post = pre ++ b ++ (rest ++ post) by
        simp [List.append_assoc]]
      exact this
    have hrec : parseLoop (some c) (pre ++ (b ++ rest) ++ post)
        (pre.length + (b ++ rest).length) fuel (pre.length + b.length) = .ok vs := by
      have := ih rest (pre ++ b) post fuel hrest (by simpa using Nat.le_of_succ_le_succ hfuel)
      rw [show (pre ++ b) ++ rest ++ post = pre ++ (b ++ rest) ++ post by
        simp [List.append_assoc]] at this
      rw [show (pre ++ b).length + rest.length = pre.length + (b ++ rest).length by
        simp [List.length_append]; omega] at this
      rw [show (pre ++ b).length = pre.length + b.length by simp] at this
      exact this
    simp only [parseLoop, hlt, if_true, optSegment, hseg, hrec]

/-- Unfolding `deserialize_segment` once both length checks pass: the
result is the element loop's outcome paired with `list_end_index`. -/
theorem deserialize_segment_eq {α : Type} (s : SSZList α) (data : Bytes) (start L : Nat)
    (h4 : start + LIST_PREFIX_LENGTH ≤ data.length)
    (hL : fromBytesBE ((data.drop start).take LIST_PREFIX_LENGTH) = L)
    (hwhole : start + LIST_PREFIX_LENGTH + L ≤ data.length) :
    s.deserialize_segment data start =
      match parseLoop s.element_sedes data (start + LIST_PREFIX_LENGTH + L) (L + 1)
          (start + LIST_PREFIX_LENGTH) with
      | .error e => .error e
      | .ok elems => .ok (elems, start + LIST_PREFIX_LENGTH + L) := by
  unfold SSZList.deserialize_segment
  rw [hL, if_neg (Nat.not_lt.mpr h4), if_neg (Nat.not_lt.mpr hwhole)]

/-- Decomposing a successful `List.serialize`: the element data, its bound,
and the shape of the output. -/
theorem serialize_ok_decomp {α : Type} (s : SSZList α) (vs : List α) (enc : Bytes)
    (h : s.serialize vs = .ok enc) :
    ∃ body, serializeElems s.element_sedes vs = .ok body ∧
      body.length < MAX_LEN_SERIALIZED_LIST_OBJECT ∧
      enc = toBytesBE LIST_PREFIX_LENGTH body.length ++ body := by
  unfold SSZList.serialize at h
  by_cases hemp : (s.empty && vs.length != 0) = true
  · rw [if_pos hemp] at h; cases h
  · rw [if_neg hemp] at h
    cases hel : serializeElems s.element_sedes vs with
    | error e => rw [hel] at h; cases h
    | ok body =>
      rw [hel] at h
      simp only at h
      by_cases hmax : MAX_LEN_SERIALIZED_LIST_OBJECT ≤ body.length
      · rw [if_pos hmax] at h; cases h
      · rw [if_neg hmax] at h
        injection h with h
        exact ⟨body, rfl, Nat.lt_of_not_le hmax, h.symm⟩

/-! ### The uint32 element codec round-trips -/

theorem uint32_serialize_ok (n : Nat) (b : Bytes) (h : uint32.serialize n = .ok b) :
    n < 2 ^ 32 ∧ b = toBytesBE 4 n := by
  unfold uint32 at h
  simp only at h
  by_cases hn : n < 2 ^ 32
  · rw [if_pos hn] at h; injection h with h; exact ⟨hn, h.symm⟩
  · rw [if_neg hn] at h; cases h

theorem uint32_segParses : SegParses uint32 := by
  intro v b pre post hser
  obtain ⟨hv, hb⟩ := uint32_serialize_ok v b hser
  have hblen : b.length = 4 := by rw [hb]; exact length_toBytesBE 4 v
  have hlen : (pre ++ b ++ post).length = pre.length + 4 + post.length := by
    simp [hblen]
    omega
  show (if (pre ++ b ++ post).length < pre.length + 4 then _ else _) = _
  rw [if_neg (by omega)]
  have hdrop : (pre ++ b ++ post).drop pre.length = b ++ post := by
    rw [List.append_assoc, List.drop_left]
  have htake : (b ++ post).take 4 = b := by
    rw [← hblen, List.take_left]
  rw [hdrop, htake, hb, fromBytesBE_toBytesBE 4 v (by exact hv), length_toBytesBE]

theorem uint32_serNonempty : SerNonempty uint32 := by
  intro v b h
  obtain ⟨_, hb⟩ := uint32_serialize_ok v b h
  rw [hb, length_toBytesBE]
  omega

/-- C1: for every element codec whose encodings round-trip
(`SegParses`) and are non-empty (`SerNonempty`), and every value list whose
`List.serialize` succeeds, `List.deserialize` of the encoding returns the
original list, order preserved: decode(encode(v, s), s) == v. -/
theorem c1_list_decode_encode {α : Type} (c : Codec α) (h2 : SegParses c)
    (h3 : SerNonempty c) (vs : List α) (enc : Bytes)
    (henc : (listOf c).serialize vs = .ok enc) :
    (listOf c).deserialize enc = .ok vs := by
  obtain ⟨body, hel, hlt, rfl⟩ := serialize_ok_decomp _ _ _ henc
  have hencTo := serializeElems_encodesTo c vs body hel
  have hvslen := encodesTo_length_le c h3 vs body hencTo
  have hplen : (toBytesBE LIST_PREFIX_LENGTH body.length).length = LIST_PREFIX_LENGTH :=
    length_toBytesBE _ _
  have hlen : (toBytesBE LIST_PREFIX_LENGTH body.length ++ body).length =
      LIST_PREFIX_LENGTH + body.length := by
    simp [hplen]
  have hL : fromBytesBE (((toBytesBE LIST_PREFIX_LENGTH body.length ++ body).drop 0).take
      LIST_PREFIX_LENGTH) = body.length := by
    rw [List.drop_zero, List.take_append_of_le_length (le_of_eq hplen.symm),
      List.take_of_length_le (le_of_eq hplen)]
    exact fromBytesBE_toBytesBE _ _ hlt
  have hloop : parseLoop (some c) (toBytesBE LIST_PREFIX_LENGTH body.length ++ body)
      (0 + LIST_PREFIX_LENGTH + body.length) (body.length + 1)
      (0 + LIST_PREFIX_LENGTH) = .ok vs := by
    have := parseLoop_append c h2 h3 vs body (toBytesBE LIST_PREFIX_LENGTH body.length)
      [] (body.length + 1) hencTo (by omega)
    rw [List.append_nil, hplen] at this
    simpa using this
  have hseg : (listOf c).deserialize_segment
      (toBytesBE LIST_PREFIX_LENGTH body.length ++ body) 0 =
      .ok (vs, 0 + LIST_PREFIX_LENGTH + body.length) := by
    rw [deserialize_segment_eq _ _ 0 body.length (by omega) hL (by omega)]
    simp only [listOf] at hloop ⊢
    rw [hloop]
  unfold SSZList.deserialize
  rw [hseg]
  simp [hlen]

/-- C1 witness: encoding `[1, 2, 3]` with the `List(uint32)` sedes and
decoding the result returns `[1, 2, 3]` in order. -/
theorem c1_witness :
    uint32_list.deserialize [0, 0, 0, 12, 0, 0, 0, 1, 0, 0, 0, 2, 0, 0, 0, 3] =
      .ok [1, 2, 3] :=
  c1_list_decode_encode uint32 uint32_segParses uint32_serNonempty [1, 2, 3]
    [0, 0, 0, 12, 0, 0, 0, 1, 0, 0, 0, 2, 0, 0, 0, 3] (by rfl)

/-- The element loop returns the empty list as soon as the index is not
strictly below `list_end_index`, whatever the fuel. -/
theorem parseLoop_done {α : Type} (es : Option (Codec α)) (data : Bytes)
    (list_end_index fuel idx : Nat) (h : ¬idx < list_end_index) :
    parseLoop es data list_end_index fuel idx = .ok [] := by
  cases fuel <;> simp [parseLoop, h]

/-- C2 counterexample: with a `List(uint32)` sedes and data
`[0,0,0,2,0,0,0,7]`, the length field declares 2 bytes of element data, so
`list_end_index = 6`; the single `uint32` element call starting at index 4
advances to 8, strictly past 6, yet `deserialize_segment` returns a result
(`([7], 6)`) instead of failing — refuting the claim that overshoot is a
decode error. -/
theorem c2_counterexample :
    fromBytesBE ([0, 0, 0, 2, 0, 0, 0, 7].take LIST_PREFIX_LENGTH) = 2 ∧
    uint32.deserialize_segment [0, 0, 0, 2, 0, 0, 0, 7] 4 = .ok (7, 8) ∧
    0 + LIST_PREFIX_LENGTH + 2 < 8 ∧
    uint32_list.deserialize_segment [0, 0, 0, 2, 0, 0, 0, 7] 0 = .ok ([7], 6) :=
  ⟨by rfl, by rfl, by decide, by rfl⟩

/-- C2 amended: if the first element call advances the index strictly past
`list_end_index` (and the two length checks pass, with a positive declared
length), the `while` loop simply exits: `List.deserialize_segment` returns
the decoded elements together with `list_end_index`, silently accepting the
overshoot rather than raising a decode error. -/
theorem c2_overshoot_accepted {α : Type} (c : Codec α) (data : Bytes) (start L : Nat)
    (h4 : start + LIST_PREFIX_LENGTH ≤ data.length)
    (hL : fromBytesBE ((data.drop start).take LIST_PREFIX_LENGTH) = L)
    (hwhole : start + LIST_PREFIX_LENGTH + L ≤ data.length)
    (hpos : 0 < L) (x : α) (j : Nat)
    (hseg : c.deserialize_segment data (start + LIST_PREFIX_LENGTH) = .ok (x, j))
    (hover : start + LIST_PREFIX_LENGTH + L < j) :
    (listOf c).deserialize_segment data start =
      .ok ([x], start + LIST_PREFIX_LENGTH + L) := by
  have hdone : parseLoop (some c) data (start + LIST_PREFIX_LENGTH + L) L j = .ok [] :=
    parseLoop_done _ _ _ _ _ (by omega)
  have hloop : parseLoop (some c) data (start + LIST_PREFIX_LENGTH + L) (L + 1)
      (start + LIST_PREFIX_LENGTH) = .ok [x] := by
    simp only [parseLoop, if_pos (show start + LIST_PREFIX_LENGTH <
        start + LIST_PREFIX_LENGTH + L by omega), optSegment, hseg, hdone]
  rw [deserialize_segment_eq _ _ start L h4 hL hwhole]
  simp only [listOf] at hloop ⊢
  rw [hloop]

/-- C2 amended witness: the concrete overshoot input, decoded through the
amended statement. -/
theorem c2_witness :
    uint32_list.deserialize_segment [0, 0, 0, 2, 0, 0, 0, 7] 0 = .ok ([7], 6) :=
  c2_overshoot_accepted uint32 [0, 0, 0, 2, 0, 0, 0, 7] 0 2 (by decide) (by rfl)
    (by decide) (by decide) 7 8 (by rfl) (by decide)

/-- C4: whenever `List.serialize` succeeds, the first `LIST_PREFIX_LENGTH`
bytes of its output, read as a big-endian integer, equal the byte length of
the rest of the output (the concatenated element encodings) — a byte
count, not an element count. -/
theorem c4_length_field {α : Type} (s : SSZList α) (vs : List α) (enc : Bytes)
    (h : s.serialize vs = .ok enc) :
    fromBytesBE (enc.take LIST_PREFIX_LENGTH) = (enc.drop LIST_PREFIX_LENGTH).length := by
  obtain ⟨body, hel, hlt, rfl⟩ := serialize_ok_decomp _ _ _ h
  have hplen := length_toBytesBE LIST_PREFIX_LENGTH body.length
  have hdrop : ((toBytesBE LIST_PREFIX_LENGTH body.length ++ body).drop
      LIST_PREFIX_LENGTH).length = body.length := by
    rw [List.length_drop, List.length_append, hplen]
    omega
  rw [hdrop, List.take_append_of_le_length (le_of_eq hplen.symm),
    List.take_of_length_le (le_of_eq hplen)]
  exact fromBytesBE_toBytesBE _ _ hlt

/-- C4 witness: the length field of the `List(uint32)` encoding of
`[1, 2, 3]` reads 12 in big-endian, the byte length of the element data. -/
theorem c4_witness :
    fromBytesBE ([0, 0, 0, 12, 0, 0, 0, 1, 0, 0, 0, 2, 0, 0, 0, 3].take
        LIST_PREFIX_LENGTH) =
      (([0, 0, 0, 12, 0, 0, 0, 1, 0, 0, 0, 2, 0, 0, 0, 3] : Bytes).drop
        LIST_PREFIX_LENGTH).length :=
  c4_length_field uint32_list [1, 2, 3]
    [0, 0, 0, 12, 0, 0, 0, 1, 0, 0, 0, 2, 0, 0, 0, 3] (by rfl)

/-! ### Failure helpers for deserialize_segment / deserialize -/

theorem deserialize_segment_short {α : Type} (s : SSZList α) (data : Bytes) (start : Nat)
    (h : data.length < start + LIST_PREFIX_LENGTH) :
    s.deserialize_segment data start = .error .deserializationCannotRetrieveLength := by
  unfold SSZList.deserialize_segment
  rw [if_pos h]

theorem deserialize_segment_whole_short {α : Type} (s : SSZList α) (data : Bytes)
    (start : Nat) (h1 : start + LIST_PREFIX_LENGTH ≤ data.length)
    (h2 : data.length < start + LIST_PREFIX_LENGTH +
      fromBytesBE ((data.drop start).take LIST_PREFIX_LENGTH)) :
    s.deserialize_segment data start = .error .deserializationCannotRetrieveWholeList := by
  unfold SSZList.deserialize_segment
  rw [if_neg (Nat.not_lt.mpr h1), if_pos h2]

theorem deserialize_of_segment_error {α : Type} (s : SSZList α) (data : Bytes) (e : Err)
    (h : s.deserialize_segment data 0 = .error e) : s.deserialize data = .error e := by
  unfold SSZList.deserialize
  rw [h]

/-- A successful segment whose elements are the encoding of `vs` followed by
arbitrary trailing bytes: the segment stops at `list_end_index`. -/
theorem listOf_segment_encodes {α : Type} (c : Codec α) (h2 : SegParses c)
    (h3 : SerNonempty c) (vs : List α) (body post : Bytes)
    (hencTo : EncodesTo c vs body) (hlt : body.length < MAX_LEN_SERIALIZED_LIST_OBJECT) :
    (listOf c).deserialize_segment
      (toBytesBE LIST_PREFIX_LENGTH body.length ++ body ++ post) 0 =
      .ok (vs, 0 + LIST_PREFIX_LENGTH + body.length) := by
  have hvslen := encodesTo_length_le c h3 vs body hencTo
  have hplen := length_toBytesBE LIST_PREFIX_LENGTH body.length
  have hlen : (toBytesBE LIST_PREFIX_LENGTH body.length ++ body ++ post).length =
      LIST_PREFIX_LENGTH + body.length + post.length := by
    simp [hplen]
    omega
  have hL : fromBytesBE (((toBytesBE LIST_PREFIX_LENGTH body.length ++ body ++ post).drop
      0).take LIST_PREFIX_LENGTH) = body.length := by
    rw [List.drop_zero, List.append_assoc,
      List.take_append_of_le_length (le_of_eq hplen.symm),
      List.take_of_length_le (le_of_eq hplen)]
    exact fromBytesBE_toBytesBE _ _ hlt
  have hloop : parseLoop (some c) (toBytesBE LIST_PREFIX_LENGTH body.length ++ body ++ post)
      (0 + LIST_PREFIX_LENGTH + body.length) (body.length + 1)
      (0 + LIST_PREFIX_LENGTH) = .ok vs := by
    have := parseLoop_append c h2 h3 vs body (toBytesBE LIST_PREFIX_LENGTH body.length)
      post (body.length + 1) hencTo (by omega)
    rw [hplen] at this
    simpa using this
  rw [deserialize_segment_eq _ _ 0 body.length (by omega) hL (by omega)]
  simp only [listOf] at hloop ⊢
  rw [hloop]

/-- C5: `List.deserialize_segment` fails when fewer than
`LIST_PREFIX_LENGTH` bytes remain at `start_index`, fails when the data is
shorter than the end index declared by the length field, and consequently
decoding any proper prefix of a valid `List.serialize` output fails with a
deserialization error — never a partial list. -/
theorem c5_truncation_rejected {α : Type} (s : SSZList α) (data : Bytes) (start : Nat)
    (vs : List α) (enc : Bytes) (t : Nat) :
    (data.length < start + LIST_PREFIX_LENGTH →
      s.deserialize_segment data start = .error .deserializationCannotRetrieveLength)
    ∧ (start + LIST_PREFIX_LENGTH ≤ data.length →
      data.length < start + LIST_PREFIX_LENGTH +
          fromBytesBE ((data.drop start).take LIST_PREFIX_LENGTH) →
      s.deserialize_segment data start = .error .deserializationCannotRetrieveWholeList)
    ∧ (s.serialize vs = .ok enc → t < enc.length →
      ∃ e, s.deserialize (enc.take t) = .error e ∧ e.isDeserializationError = true) := by
  refine ⟨deserialize_segment_short s data start,
    deserialize_segment_whole_short s data start, ?_⟩
  intro henc ht
  obtain ⟨body, hel, hlt, rfl⟩ := serialize_ok_decomp _ _ _ henc
  have hplen := length_toBytesBE LIST_PREFIX_LENGTH body.length
  have henclen : (toBytesBE LIST_PREFIX_LENGTH body.length ++ body).length =
      LIST_PREFIX_LENGTH + body.length := by
    simp [hplen]
  have httake : ((toBytesBE LIST_PREFIX_LENGTH body.length ++ body).take t).length = t := by
    rw [List.length_take]
    omega
  by_cases ht4 : t < LIST_PREFIX_LENGTH
  · refine ⟨.deserializationCannotRetrieveLength, ?_, rfl⟩
    apply deserialize_of_segment_error
    apply deserialize_segment_short
    rw [httake]
    omega
  · refine ⟨.deserializationCannotRetrieveWholeList, ?_, rfl⟩
    apply deserialize_of_segment_error
    have hL : fromBytesBE ((((toBytesBE LIST_PREFIX_LENGTH body.length ++ body).take t).drop
        0).take LIST_PREFIX_LENGTH) = body.length := by
      rw [List.drop_zero, List.take_take, min_eq_left (Nat.le_of_not_lt ht4),
        List.take_append_of_le_length (le_of_eq hplen.symm),
        List.take_of_length_le (le_of_eq hplen)]
      exact fromBytesBE_toBytesBE _ _ hlt
    apply deserialize_segment_whole_short
    · rw [httake]; omega
    · rw [httake, hL]; omega

/-- C5 witness: the length check fires on 3 bytes, the whole-list check
fires when the field declares more data than remains, and the proper
prefix of length 5 of the `List(uint32)` encoding of `[1, 2, 3]` fails with
a deserialization error. -/
theorem c5_witness :
    (uint32_list.deserialize_segment [0, 0, 0] 0 =
      .error .deserializationCannotRetrieveLength)
    ∧ (uint32_list.deserialize_segment [0, 0, 0, 4, 9] 0 =
      .error .deserializationCannotRetrieveWholeList)
    ∧ (∃ e, uint32_list.deserialize
        (([0, 0, 0, 12, 0, 0, 0, 1, 0, 0, 0, 2, 0, 0, 0, 3] : Bytes).take 5) =
        .error e ∧ e.isDeserializationError = true) :=
  ⟨(c5_truncation_rejected uint32_list [0, 0, 0] 0 [] [] 0).1 (by decide),
    (c5_truncation_rejected uint32_list [0, 0, 0, 4, 9] 0 [] [] 0).2.1 (by decide) (by decide),
    (c5_truncation_rejected uint32_list [] 0 [1, 2, 3]
      [0, 0, 0, 12, 0, 0, 0, 1, 0, 0, 0, 2, 0, 0, 0, 3] 5).2.2 (by rfl) (by decide)⟩

/-- C6: `List.deserialize` rejects any segment end index other than
`len(data)` with the "too long" deserialization error, and appending an
extra byte after a valid top-level `List.serialize` output always makes
`deserialize` fail with that error. -/
theorem c6_trailing_rejected {α : Type} (s : SSZList α) (data : Bytes) (vs0 : List α)
    (e0 : Nat) (c : Codec α) (h2 : SegParses c) (h3 : SerNonempty c) (ws : List α)
    (enc : Bytes) (b : Nat) :
    (s.deserialize_segment data 0 = .ok (vs0, e0) → e0 ≠ data.length →
      s.deserialize data = .error .deserializationTooLong)
    ∧ ((listOf c).serialize ws = .ok enc →
      (listOf c).deserialize (enc ++ [b]) = .error .deserializationTooLong) := by
  constructor
  · intro hseg hne
    unfold SSZList.deserialize
    rw [hseg]
    dsimp only
    rw [if_pos (by simpa using hne)]
  · intro henc
    obtain ⟨body, hel, hlt, rfl⟩ := serialize_ok_decomp _ _ _ henc
    have hencTo := serializeElems_encodesTo c ws body (by simpa [listOf] using hel)
    have hplen := length_toBytesBE LIST_PREFIX_LENGTH body.length
    have hseg := listOf_segment_encodes c h2 h3 ws body [b] hencTo hlt
    have hcond : ((0 + LIST_PREFIX_LENGTH + body.length) !=
        (toBytesBE LIST_PREFIX_LENGTH body.length ++ body ++ [b]).length) = true := by
      simp only [bne_iff_ne, ne_eq, List.length_append, List.length_singleton, hplen]
      omega
    unfold SSZList.deserialize
    rw [hseg]
    dsimp only
    rw [if_pos hcond]

/-- C6 witness: `deserialize` of a four-byte empty-list encoding followed by
a stray byte fails, both through the generic end-index conjunct and through
the appended-byte conjunct at the `List(uint32)` encoding of `[1]`. -/
theorem c6_witness :
    (uint32_list.deserialize [0, 0, 0, 0, 9] = .error .deserializationTooLong)
    ∧ (uint32_list.deserialize ([0, 0, 0, 4, 0, 0, 0, 1] ++ [9]) =
      .error .deserializationTooLong) :=
  ⟨(c6_trailing_rejected uint32_list [0, 0, 0, 0, 9] [] 4 uint32 uint32_segParses
      uint32_serNonempty [] [] 9).1 (by rfl) (by decide),
    (c6_trailing_rejected uint32_list [] [] 0 uint32 uint32_segParses
      uint32_serNonempty [1] [0, 0, 0, 4, 0, 0, 0, 1] 9).2 (by rfl)⟩

/-- C7: when the concatenated element encodings have length at least
`MAX_LEN_SERIALIZED_LIST_OBJECT`, `List.serialize` fails with the
serialization error; when the length is strictly smaller it succeeds and
returns the length field followed by the element data — the bound is a
hard error, never a truncation. -/
theorem c7_max_length_bound {α : Type} (c : Codec α) (vs : List α) (body : Bytes)
    (hel : serializeElems (some c) vs = .ok body) :
    (MAX_LEN_SERIALIZED_LIST_OBJECT ≤ body.length →
      (listOf c).serialize vs = .error .serializationListTooLong)
    ∧ (body.length < MAX_LEN_SERIALIZED_LIST_OBJECT →
      (listOf c).serialize vs = .ok (toBytesBE LIST_PREFIX_LENGTH body.length ++ body)) := by
  constructor
  · intro h
    simp [SSZList.serialize, listOf, hel, h]
  · intro h
    simp [SSZList.serialize, listOf, hel, Nat.not_le.mpr h]

/-- C7 witness: 12 bytes of element data are under the bound, so the
`List(uint32)` encoding of `[1, 2, 3]` succeeds with the length field
prepended. -/
theorem c7_witness :
    (listOf uint32).serialize [1, 2, 3] =
      .ok [0, 0, 0, 12, 0, 0, 0, 1, 0, 0, 0, 2, 0, 0, 0, 3] :=
  (c7_max_length_bound uint32 [1, 2, 3] [0, 0, 0, 1, 0, 0, 0, 2, 0, 0, 0, 3]
    (by rfl)).2 (by decide)

/-- C8: the `List(empty=True)` sedes serializes the empty collection to
exactly `LIST_PREFIX_LENGTH` zero bytes, fails with the `ValueError` on
any non-empty input, and deserializes that all-zero byte string back to
the empty tuple. -/
theorem c8_empty_sentinel {α : Type} (vs : List α) :
    (SSZList.serialize (empty_list (α := α)) [] =
      .ok (List.replicate LIST_PREFIX_LENGTH 0))
    ∧ (vs ≠ [] →
      SSZList.serialize (empty_list (α := α)) vs = .error .valueErrorEmptyNonEmpty)
    ∧ (SSZList.deserialize (empty_list (α := α)) (List.replicate LIST_PREFIX_LENGTH 0) =
      .ok []) := by
  refine ⟨by rfl, ?_, by rfl⟩
  intro hne
  cases vs with
  | nil => exact absurd rfl hne
  | cons v vs => simp [SSZList.serialize, empty_list]

/-- C8 witness: the empty-list sedes over `Nat`, applied to `[]`, `[5]`,
and the four zero bytes. -/
theorem c8_witness :
    (SSZList.serialize (empty_list (α := Nat)) [] =
      .ok (List.replicate LIST_PREFIX_LENGTH 0))
    ∧ (SSZList.serialize (empty_list (α := Nat)) [5] = .error .valueErrorEmptyNonEmpty)
    ∧ (SSZList.deserialize (empty_list (α := Nat)) (List.replicate LIST_PREFIX_LENGTH 0) =
      .ok []) :=
  ⟨(c8_empty_sentinel [5]).1, (c8_empty_sentinel [5]).2.1 (by decide),
    (c8_empty_sentinel [5]).2.2⟩

/-- C9: `List.__init__` fails with the ValueError naming both arguments
when both are truthy, fails with the other ValueError when neither is,
succeeds exactly when one of the two is set, and a successfully constructed
sedes carries exactly one of {element_sedes, empty}. -/
theorem c9_init_xor {α : Type} (es : Option (Codec α)) (e : Bool) :
    ((es.isSome && e) = true → list_init es e = .error .valueErrorBothSpecified)
    ∧ ((!es.isSome && !e) = true → list_init es e = .error .valueErrorNeitherSpecified)
    ∧ (es.isSome ≠ e → list_init es e = .ok ⟨es, e⟩)
    ∧ (∀ s : SSZList α, list_init es e = .ok s →
        s.element_sedes = es ∧ s.empty = e ∧ s.element_sedes.isSome = !s.empty) := by
  cases es <;> cases e <;> simp [list_init]

/-- C9 witness: both set fails, neither set fails, and exactly one set
succeeds with the attributes as given. -/
theorem c9_witness :
    (list_init (some uint32) true = .error .valueErrorBothSpecified)
    ∧ (list_init (none : Option (Codec Nat)) false = .error .valueErrorNeitherSpecified)
    ∧ (list_init (some uint32) false = .ok ⟨some uint32, false⟩) :=
  ⟨(c9_init_xor (some uint32) true).1 (by rfl),
    (c9_init_xor (none : Option (Codec Nat)) false).2.1 (by rfl),
    (c9_init_xor (some uint32) false).2.2.1 (by decide)⟩

/-! ### The codec dispatcher (ssz/codec.py) -/

/-- A Python value passed as the `sedes` argument of `encode`: `None`, a
string, an integer, or a sedes object of type `S`. -/
inductive SedesArg (S : Type)
  | pynone
  | pystr (s : String)
  | pyint (n : Int)
  | pyobj (o : S)

/-- Python truthiness of a `sedes` argument: `None`, the empty string and
zero are falsy; a sedes object (no custom bool conversion) is truthy. -/
def SedesArg.truthy {S : Type} : SedesArg S → Bool
  | .pynone => false
  | .pystr s => s != ""
  | .pyint n => n != 0
  | .pyobj _ => true

/-- the dictionary membership and lookup `if sedes in sedes_by_name`:
`sedes_by_name` is keyed by name strings, so only a string argument can
resolve; everything else passes through unchanged. -/
def resolve_by_name {S : Type} (sedes_by_name : String → Option S) :
    SedesArg S → SedesArg S
  | .pystr s =>
    match sedes_by_name s with
    | some c => .pyobj c
    | none => .pystr s
  | a => a

/-- Embeds `encode(obj, sedes=None)` from `ssz/codec.py`. The external
collaborators are parameters: `sedes_by_name` is the name registry,
`is_sedes` the capability check, `serializeArg a` stands for
`a.serialize(obj)`, and `inferred` for `infer_sedes(obj)`. The dispatch
itself is the code's: `if sedes:` (truthiness), name resolution, the
`is_sedes` validation with `InvalidSedesError`, else type inference. -/
def encode {S : Type} (sedes_by_name : String → Option S)
    (is_sedes : SedesArg S → Bool) (serializeArg : SedesArg S → Except Err Bytes)
    (inferred : S) (sedes : SedesArg S) : Except Err Bytes :=
  if sedes.truthy then
    let sedes_obj := resolve_by_name sedes_by_name sedes
    if is_sedes sedes_obj then
      serializeArg sedes_obj
    else
      .error .invalidSedesError
  else
    serializeArg (.pyobj inferred)

/-- C10: for every falsy `sedes` argument (so also the falsy non-`None`
values, empty string and zero), `encode` skips name resolution and the
`is_sedes` check and falls back to type inference on the value; in
particular it does not raise `InvalidSedesError` unless the inferred
sedes's own serialization does. -/
theorem c10_encode_truthiness {S : Type} (sedes_by_name : String → Option S)
    (is_sedes : SedesArg S → Bool) (serializeArg : SedesArg S → Except Err Bytes)
    (inferred : S) (sedes : SedesArg S) (h : sedes.truthy = false) :
    encode sedes_by_name is_sedes serializeArg inferred sedes =
      serializeArg (.pyobj inferred)
    ∧ (serializeArg (.pyobj inferred) ≠ .error .invalidSedesError →
      encode sedes_by_name is_sedes serializeArg inferred sedes ≠
        .error .invalidSedesError) := by
  have he : encode sedes_by_name is_sedes serializeArg inferred sedes =
      serializeArg (.pyobj inferred) := by
    simp [encode, h]
  exact ⟨he, fun hn => he ▸ hn⟩

/-- C10 witness: with `is_sedes` constantly false, both the empty string
and the integer 0 still take the inference path and succeed. -/
theorem c10_witness :
    (encode (fun _ => (none : Option Unit)) (fun _ => false) (fun _ => .ok [0]) ()
      (.pystr "") = .ok [0])
    ∧ (encode (fun _ => (none : Option Unit)) (fun _ => false) (fun _ => .ok [0]) ()
      (.pyint 0) = .ok [0]) :=
  ⟨(c10_encode_truthiness _ _ _ () (.pystr "") (by rfl)).1,
    (c10_encode_truthiness _ _ _ () (.pyint 0) (by rfl)).1⟩

/-! ### Tree hashing (modelled from the spec) -/

/-- Modelled from the spec: the 32-byte chunk size of the Merkleization
scheme (`ssz/tree_hash` is not in src). -/
def CHUNK_SIZE : Nat := 32

/-- Modelled from the spec: the all-zero chunk used for padding. -/
def zero_chunk : Bytes := List.replicate CHUNK_SIZE 0

/-- Modelled from the spec: right-pad a block shorter than a chunk with
zero bytes. -/
def padChunk (b : Bytes) : Bytes := b ++ List.replicate (CHUNK_SIZE - b.length) 0

/-- Modelled from the spec: split serialized leaf data into 32-byte chunks,
zero-padding the final chunk (fuel variant; `chunkify` supplies enough). -/
def chunkifyAux : Nat → Bytes → List Bytes
  | 0, b => [padChunk b]
  | fuel + 1, b =>
    if b.length ≤ CHUNK_SIZE then [padChunk b]
    else padChunk (b.take CHUNK_SIZE) :: chunkifyAux fuel (b.drop CHUNK_SIZE)

/-- Modelled from the spec: chunking of a serialized value (§4.4 step 1). -/
def chunkify (b : Bytes) : List Bytes := chunkifyAux b.length b

/-- Modelled from the spec: one level of pairwise hashing, padding an odd
chunk count with the all-zero chunk, left-then-right. -/
def pairUp (H : Bytes → Bytes → Bytes) : List Bytes → List Bytes
  | [] => []
  | [x] => [H x zero_chunk]
  | x :: y :: rest => H x y :: pairUp H rest

/-- Modelled from the spec: hash sibling pairs level by level until a
single root chunk remains (fuel variant). -/
def merkleizeAux (H : Bytes → Bytes → Bytes) : Nat → List Bytes → Bytes
  | _, [] => zero_chunk
  | _, [c] => c
  | 0, c :: _ :: _ => c
  | fuel + 1, chunks => merkleizeAux H fuel (pairUp H chunks)

/-- Modelled from the spec: the Merkle root of a chunk list, for any
2-to-1 chunk hash `H`. -/
def merkleize (H : Bytes → Bytes → Bytes) (chunks : List Bytes) : Bytes :=
  merkleizeAux H chunks.length chunks

/-- Modelled from the spec: `Boolean().serialize` (`ssz/sedes/boolean.py`
is not in src): one byte, `\x01` for True and `\x00` for False, the
values the tree-hash test asserts. -/
def boolean_serialize (b : Bool) : Bytes := [if b then 1 else 0]

/-- Modelled from the spec: `hash_tree_root(value, Boolean())` — serialize
the fixed-size scalar, chunk, and Merkleize (§4.4 step 1). -/
def hash_tree_root_boolean (H : Bytes → Bytes → Bytes) (b : Bool) : Bytes :=
  merkleize H (chunkify (boolean_serialize b))

/-- C3: for any chunk-pair hash, the tree-hash root of `True` under the
Boolean sedes is the byte 1 followed by 31 zero bytes, and the root of
`False` is 32 zero bytes — the single padded chunk is the root. -/
theorem c3_boolean_tree_root (H : Bytes → Bytes → Bytes) :
    hash_tree_root_boolean H true = 1 :: List.replicate 31 0
    ∧ hash_tree_root_boolean H false = List.replicate 32 0 :=
  ⟨rfl, rfl⟩

/-- C3 witness: the roots at a concrete chunk-pair hash. -/
theorem c3_witness :
    hash_tree_root_boolean (fun a _ => a) true = 1 :: List.replicate 31 0 :=
  (c3_boolean_tree_root (fun a _ => a)).1

end Ssz
